import Mathlib

/-!
Shallow embedding of `src/weather.py` (dummy_weather_push).

Python dictionaries with string keys are modelled as association lists
(`Dict`); lookup takes the first matching entry, which coincides with the
Python dict when keys are unique (as they always are in this program).
Python numbers (floats and ints) are modelled as rationals; Python's
`int(x)` conversion is truncation toward zero (`ratTrunc`).
-/

namespace Weather

/-- A Python dict with string keys and numeric values. -/
abbrev Dict := List (String × ℚ)

/-- Python `int(x)` on a number: truncation toward zero. -/
def ratTrunc (q : ℚ) : ℤ :=
  if 0 ≤ q then ⌊q⌋ else ⌈q⌉

/-- One raw hourly forecast record, as consumed by `simplify_hour` and
`Weather.check_report`: the wall-clock hour of its timestamp
(`datetime.fromtimestamp(h['dt']).hour`), fields `uvi`, `temp` (Kelvin),
`wind_speed`, `pop` (0-1 probability), and the optional `rain['1h']` volume. -/
structure RawHour where
  hour : ℤ
  uvi : ℚ
  temp : ℚ
  wind_speed : ℚ
  pop : ℚ
  rain1h : Option ℚ
  deriving Repr, DecidableEq

/-- `simplify_hour` from `src/weather.py`: normalizes one raw hourly record
into the semantic dict. `rain and rain.get('1h') and rain.get('1h') > 0.2`
is truthiness: the `1h` value must be present, non-zero and `> 0.2`. -/
def simplify_hour (h : RawHour) : Dict :=
  let temp : ℚ := h.temp - 273.15
  [("UV", h.uvi),
   ("COLD", (ratTrunc temp : ℚ)),
   ("HOT", (ratTrunc temp : ℚ)),
   ("WIND", (ratTrunc h.wind_speed : ℚ)),
   ("PROB_RAIN", (ratTrunc (h.pop * 100) : ℚ))] ++
  (match h.rain1h with
   | some r => if r ≠ 0 ∧ r > 0.2 then [("RAINDROPS", r)] else []
   | none => [])

/-- The fixed condition rule table of `Status.__init__`, in source order. -/
def conditions : List (String × (ℚ → Bool)) :=
  [("PROB_RAIN", fun x => decide (x > 50)),
   ("COLD", fun x => decide (x < 15)),
   ("UV", fun x => decide (x > 2)),
   ("HOT", fun x => decide (x > 25))]

/-- The names of the four conditions, in rule-table order. -/
def condNames : List String := conditions.map Prod.fst

/-- The fixed emoji table of `Status.__init__`. -/
def emojis : List (String × String) :=
  [("PROB_RAIN", String.mk [Char.ofNat 0x1F327]),
   ("COLD", String.mk [Char.ofNat 0x1F976]),
   ("UV", String.mk [Char.ofNat 0xE04A]),
   ("HOT", String.mk [Char.ofNat 0x1F975])]

/-- The three dict-valued fields computed by `Status.__init__`. -/
structure StatusT where
  values : Dict
  bools : List (String × Bool)
  warnings : Dict
  deriving Repr, DecidableEq

/-- `Status.__init__` from `src/weather.py`:
`values = {k:v for k, v in d.items() if k in conditions}`,
`bools = {key: test(d[key]) for key, test in conditions.items() if key in d}`,
`warnings = {key: d.get(key) for key, test in conditions.items()
             if key in d and test(d.get(key))}`. -/
def Status.mk' (d : Dict) : StatusT where
  values := d.filter (fun kv => condNames.contains kv.1)
  bools := conditions.filterMap (fun kt =>
    match d.lookup kt.1 with
    | some v => some (kt.1, kt.2 v)
    | none => none)
  warnings := conditions.filterMap (fun kt =>
    match d.lookup kt.1 with
    | some v => if kt.2 v then some (kt.1, v) else none
    | none => none)

/-- `Status.get_most_important_warning`: the first key of the warnings dict
in insertion order, or the empty string when there are no warnings. -/
def StatusT.get_most_important_warning (s : StatusT) : String :=
  match s.warnings with
  | [] => ""
  | kv :: _ => kv.1

/-- `Status.__bool__`: a status is truthy iff its warnings dict is empty. -/
def StatusT.toBool (s : StatusT) : Bool :=
  s.warnings.isEmpty

/-- `Status.get_long_message`: one `{emoji}: {int(value)}` line per warning. -/
def StatusT.get_long_message (s : StatusT) : String :=
  String.intercalate "\n"
    (s.warnings.map (fun kv =>
      ((emojis.lookup kv.1).getD "") ++ ": " ++ toString (ratTrunc kv.2)))

/-- The two schedule sets held by a constructed `Loop`, as `(hour, minute)`
pairs. -/
structure LoopT where
  next_hour_checks_at : List (ℤ × ℤ)
  report_checks_at : List (ℤ × ℤ)
  deriving Repr, DecidableEq

/-- Python `stamp.split(':')` on the character list of the stamp. -/
def splitOnColon : List Char → List (List Char)
  | [] => [[]]
  | c :: rest =>
      if c = ':' then [] :: splitOnColon rest
      else
        match splitOnColon rest with
        | f :: fs => (c :: f) :: fs
        | [] => [[c]]

/-- The numeric value of a decimal digit character, `none` otherwise. -/
def digitVal (c : Char) : Option ℕ :=
  if '0' ≤ c ∧ c ≤ '9' then some (c.toNat - '0'.toNat) else none

/-- Accumulate decimal digits left to right; `none` on a non-digit. -/
def parseNatDigitsAux : ℕ → List Char → Option ℕ
  | acc, [] => some acc
  | acc, c :: rest =>
      match digitVal c with
      | some d => parseNatDigitsAux (acc * 10 + d) rest
      | none => none

/-- Python `int(s)` on a schedule field: an optional minus sign followed by
at least one decimal digit; anything else raises (modelled as `none`). -/
def parseIntChars : List Char → Option ℤ
  | [] => none
  | '-' :: rest =>
      if rest = [] then none
      else (parseNatDigitsAux 0 rest).map (fun n => -(n : ℤ))
  | cs => (parseNatDigitsAux 0 cs).map (fun n => (n : ℤ))

/-- `hh, mm = map(int, stamp.split(':'))` in `Loop.__init__`: splitting on
`:` must give exactly two integer fields, else a `ValueError` is raised
(modelled as `none`). -/
def parseStamp (s : String) : Option (ℤ × ℤ) :=
  match (splitOnColon s.toList).map parseIntChars with
  | [some hh, some mm] => some (hh, mm)
  | _ => none

/-- The per-stamp work of `Loop.__init__`: parse, then
`assert 0 <= hh <= 23` and `assert 0 <= mm <= 60` (note the inclusive 60).
`none` models an exception escaping the constructor. -/
def checkStamp (s : String) : Option (ℤ × ℤ) :=
  match parseStamp s with
  | some (hh, mm) =>
      if 0 ≤ hh ∧ hh ≤ 23 then
        if 0 ≤ mm ∧ mm ≤ 60 then some (hh, mm) else none
      else none
  | none => none

/-- `Loop.__init__`: validate every stamp of both schedules; any failing
stamp makes construction fail. -/
def Loop.init (next_hour_checks_at report_checks_at : List String) :
    Option LoopT := do
  let nh ← next_hour_checks_at.mapM checkStamp
  let rep ← report_checks_at.mapM checkStamp
  pure ⟨nh, rep⟩

/-- `Loop.regular_is_triggered`, with `datetime.now()`'s hour and minute
made explicit arguments: scan `next_hour_checks_at` for an exact match. -/
def LoopT.regular_is_triggered (L : LoopT) (nowHour nowMinute : ℤ) : Bool :=
  L.next_hour_checks_at.any (fun p => p.1 == nowHour && p.2 == nowMinute)

/-- `Loop.report_is_triggered`: the analogous scan of `report_checks_at`. -/
def LoopT.report_is_triggered (L : LoopT) (nowHour nowMinute : ℤ) : Bool :=
  L.report_checks_at.any (fun p => p.1 == nowHour && p.2 == nowMinute)

/-- The run-splitting done by
`itertools.groupby(enumerate(good_hours), lambda pair: pair[1] - pair[0])`
followed by taking each group's first and last element: adjacent elements
share a group exactly when the later one is the predecessor plus one. -/
def toPairs : List ℤ → List (ℤ × ℤ)
  | [] => []
  | x :: xs => toPairsGo x x xs
where
  toPairsGo (start prev : ℤ) : List ℤ → List (ℤ × ℤ)
  | [] => [(start, prev)]
  | y :: ys =>
      if y = prev + 1 then toPairsGo start y ys
      else (start, prev) :: toPairsGo y y ys

/-- `condition_pairs_to_string` from `src/weather.py`: keep the hours whose
boolean is true, split them into runs, and render each run as `t0` or
`t0-t1`, joined with `, `. -/
def condition_pairs_to_string (arr : List (ℤ × Bool)) : String :=
  let good_hours := (arr.filter (fun p => p.2 == true)).map Prod.fst
  let pairs := toPairs good_hours
  String.intercalate ", "
    (pairs.map (fun t => if t.1 = t.2 then toString t.1
                         else toString t.1 ++ "-" ++ toString t.2))

/-- The `is_good` / `warning` / `message` triple that
`Weather.check_next_hour` and `Weather.check_report` assign. -/
structure WeatherResult where
  is_good : Bool
  warning : String
  message : String
  deriving Repr, DecidableEq

/-- The pure core of `Weather.check_next_hour`: evaluate the first hourly
record's status, then fill `is_good`, `warning`, `message`. -/
def check_next_hour (d : Dict) : WeatherResult :=
  let status := Status.mk' d
  if status.toBool then ⟨true, "", ""⟩
  else ⟨false, "next hour: " ++ status.get_most_important_warning,
        status.get_long_message⟩

/-- The window-building loop of `Weather.check_report`: walk the first 24
hourly records in order, breaking at the first whose hour is `< now.hour`
or `≥ last_hour`; keep each retained hour with its evaluated status. -/
def retainedHours (nowHour lastHour : ℤ) (hs : List RawHour) :
    List (ℤ × StatusT) :=
  ((hs.take 24).takeWhile
      (fun h => !(h.hour < nowHour || h.hour ≥ lastHour))).map
    (fun h => (h.hour, Status.mk' (simplify_hour h)))

/-- The per-condition line of `Weather.check_report`: pair each retained
hour with `status.bools.get(cond_name, False)`; if any hour triggered,
render `{emoji}: {range_string}`, otherwise contribute nothing. -/
def reportLine (cname : String) (hours : List (ℤ × StatusT)) :
    Option String :=
  let cond_arr := hours.map (fun p => (p.1, (p.2.bools.lookup cname).getD false))
  if cond_arr.any (fun p => p.2) then
    some (((emojis.lookup cname).getD "") ++ ": " ++
      condition_pairs_to_string cond_arr)
  else none

/-- The `rv` list of `Weather.check_report`: one line per condition with at
least one triggered hour, in rule-table order. -/
def reportLines (hours : List (ℤ × StatusT)) : List String :=
  conditions.filterMap (fun kt => reportLine kt.1 hours)

/-- The fixed message `'Good weather!' + ' ' + u"\U0001F917"`. -/
def goodWeatherMessage : String :=
  "Good weather!" ++ " " ++ String.mk [Char.ofNat 0x1F917]

/-- The pure core of `Weather.check_report`, with `now.hour` explicit. -/
def check_report (nowHour lastHour : ℤ) (hs : List RawHour) :
    WeatherResult :=
  let rv := reportLines (retainedHours nowHour lastHour hs)
  if rv.isEmpty then ⟨true, "", goodWeatherMessage⟩
  else ⟨false, "prepare for the day", String.intercalate "\n" rv⟩

/-- The mutable loop state of `main`: `has_broken` and `sleep` (seconds). -/
structure BackoffState where
  has_broken : Bool
  sleep : ℕ
  deriving Repr, DecidableEq

/-- The state `main` enters the loop with: `has_broken = False`,
`sleep = 60`. -/
def initBackoff : BackoffState := ⟨false, 60⟩

/-- One iteration's effect on the loop state in `main`: on a cycle with no
exception, `sleep = 60; has_broken = False`; on an exception,
`sleep = 60*15` and `has_broken = True` if this is the first failure,
else `sleep = 3600`. -/
def backoffStep (s : BackoffState) (ok : Bool) : BackoffState :=
  if ok then ⟨false, 60⟩
  else if !s.has_broken then ⟨true, 60 * 15⟩
  else ⟨s.has_broken, 3600⟩

/-- The state after `n` consecutive exception cycles starting from
`initBackoff`. -/
def failStreak (n : ℕ) : BackoffState :=
  (fun s => backoffStep s false)^[n] initBackoff

/-- The notifications `main`'s try block pushes via `notifications.update`
on a successful cycle, in order: the report result unconditionally when
the report trigger fired, then the next-hour result when the regular
trigger fired and its result is not good. -/
def cycleNotifications (rep reg : Bool) (reportRes nextRes : WeatherResult) :
    List WeatherResult :=
  (if rep then [reportRes] else []) ++
  (if reg then (if nextRes.is_good then [] else [nextRes]) else [])

/-- The consecutive integers from `a` to `b` inclusive (empty if `b < a`):
the set of hours a rendered `start-end` token stands for. -/
def intRange (a b : ℤ) : List ℤ :=
  (List.range (b - a + 1).toNat).map (fun (i : ℕ) => a + (i : ℤ))

/-! ### Helper lemmas -/

theorem lookup_mem {α β : Type} [BEq α] [LawfulBEq α] {l : List (α × β)}
    {k : α} {v : β} (h : l.lookup k = some v) : (k, v) ∈ l := by
  induction l with
  | nil => simp [List.lookup] at h
  | cons a l ih =>
      obtain ⟨a1, a2⟩ := a
      rw [List.lookup] at h
      rcases hka : (k == a1) with _ | _
      · rw [hka] at h
        exact List.mem_cons_of_mem _ (ih h)
      · rw [hka] at h
        obtain rfl : a2 = v := by simpa using h
        obtain rfl : k = a1 := eq_of_beq hka
        exact List.mem_cons_self _ _

theorem lookup_append_right_none {α β : Type} [BEq α] {l₁ l₂ : List (α × β)}
    {k : α} (h : l₂.lookup k = none) :
    (l₁ ++ l₂).lookup k = l₁.lookup k := by
  induction l₁ with
  | nil => simpa using h
  | cons a l ih =>
      obtain ⟨a1, a2⟩ := a
      rw [List.cons_append, List.lookup, List.lookup]
      rcases hka : (k == a1) with _ | _
      · simp only [hka]
        exact ih
      · rfl

theorem head?_filterMap {α β : Type} (f : α → Option β) (l : List α) :
    (l.filterMap f).head? = l.findSome? f := by
  induction l with
  | nil => rfl
  | cons a l ih =>
      rw [List.filterMap_cons, List.findSome?_cons]
      cases h : f a
      · exact ih
      · rfl

theorem findSome?_map_option {α β γ : Type} (f : α → Option β) (g : β → γ)
    (l : List α) :
    l.findSome? (fun a => (f a).map g) = (l.findSome? f).map g := by
  induction l with
  | nil => rfl
  | cons a l ih =>
      rw [List.findSome?_cons, List.findSome?_cons]
      cases h : f a
      · simpa [h] using ih
      · simp [h]

/-! ### Claims -/

/-- C1: starting from the non-failing state with sleep 60s, the first
exception sets sleep to 15 minutes and marks the state failing; every
further consecutive exception (any failing state) sets sleep to 60 minutes
and keeps the state failing, so for every streak of `n ≥ 2` consecutive
exceptions the state is failing with sleep 3600s; a single successful
cycle resets the state to not-failing with sleep 60s. -/
theorem backoff_state_machine :
    (backoffStep initBackoff false = ⟨true, 60 * 15⟩) ∧
    (failStreak 1 = ⟨true, 60 * 15⟩) ∧
    (∀ s : BackoffState, s.has_broken = true →
      backoffStep s false = ⟨true, 3600⟩) ∧
    (∀ n : ℕ, 2 ≤ n → failStreak n = ⟨true, 3600⟩) ∧
    (∀ s : BackoffState, backoffStep s true = initBackoff) := by
  refine ⟨rfl, rfl, ?_, ?_, fun s => rfl⟩
  · rintro ⟨hb, sl⟩ hbroken
    obtain rfl : hb = true := hbroken
    rfl
  · intro n hn
    induction n, hn using Nat.le_induction with
    | base => rfl
    | succ n hn ih =>
        rw [failStreak, Function.iterate_succ_apply']
        rw [show (fun s => backoffStep s false)^[n] initBackoff = failStreak n
          from rfl, ih]
        rfl

/-- Witness for C1 at a concrete streak length. -/
theorem backoff_state_machine_witness :
    failStreak 4 = ⟨true, 3600⟩ ∧
    backoffStep ⟨true, 3600⟩ false = ⟨true, 3600⟩ :=
  ⟨backoff_state_machine.2.2.2.1 4 (by norm_num),
   backoff_state_machine.2.2.1 ⟨true, 3600⟩ rfl⟩

/-- C3: `regular_is_triggered` is true iff the wall-clock (hour, minute)
pair is an entry of the next-hour schedule, and `report_is_triggered` is
true iff it is an entry of the report schedule; any pair not in the
respective set yields false. -/
theorem schedule_triggering (L : LoopT) (h m : ℤ) :
    (L.regular_is_triggered h m = true ↔ (h, m) ∈ L.next_hour_checks_at) ∧
    (L.report_is_triggered h m = true ↔ (h, m) ∈ L.report_checks_at) := by
  constructor
  · rw [LoopT.regular_is_triggered, List.any_eq_true]
    constructor
    · rintro ⟨⟨p1, p2⟩, hp, hpe⟩
      simp only [beq_iff_eq, Bool.and_eq_true] at hpe
      obtain ⟨rfl, rfl⟩ := hpe
      exact hp
    · intro hp
      exact ⟨(h, m), hp, by simp⟩
  · rw [LoopT.report_is_triggered, List.any_eq_true]
    constructor
    · rintro ⟨⟨p1, p2⟩, hp, hpe⟩
      simp only [beq_iff_eq, Bool.and_eq_true] at hpe
      obtain ⟨rfl, rfl⟩ := hpe
      exact hp
    · intro hp
      exact ⟨(h, m), hp, by simp⟩

/-- C6: the claim says a schedule entry with minute 60 is rejected at
construction, but `Loop.__init__` asserts `0 <= mm <= 60` (inclusive), so
constructing a `Loop` with the entry `"8:60"` succeeds. -/
theorem loop_accepts_minute_60 :
    Loop.init ["8:60"] ["7:00"] = some ⟨[(8, 60)], [(7, 0)]⟩ := by decide

/-- C7: `simplify_hour` sets COLD and HOT to the Kelvin temperature minus
273.15 truncated toward zero, PROB_RAIN to the probability times 100
truncated toward zero, WIND to the wind speed truncated toward zero; and
`ratTrunc` really is truncation toward zero (floor on nonnegatives, ceiling
on negatives, magnitude never exceeding the input's). -/
theorem simplify_hour_truncation (h : RawHour) :
    ((simplify_hour h).lookup "COLD" =
      some ((ratTrunc (h.temp - 273.15) : ℤ) : ℚ)) ∧
    ((simplify_hour h).lookup "HOT" =
      some ((ratTrunc (h.temp - 273.15) : ℤ) : ℚ)) ∧
    ((simplify_hour h).lookup "PROB_RAIN" =
      some ((ratTrunc (h.pop * 100) : ℤ) : ℚ)) ∧
    ((simplify_hour h).lookup "WIND" =
      some ((ratTrunc h.wind_speed : ℤ) : ℚ)) ∧
    (∀ q : ℚ, 0 ≤ q → ratTrunc q = ⌊q⌋) ∧
    (∀ q : ℚ, q < 0 → ratTrunc q = ⌈q⌉) ∧
    (∀ q : ℚ, |(ratTrunc q : ℚ)| ≤ |q| ∧ |q| - 1 < |(ratTrunc q : ℚ)|) := by
  refine ⟨rfl, rfl, rfl, rfl, fun q hq => if_pos hq, fun q hq => if_neg (by linarith), fun q => ?_⟩
  rw [ratTrunc]
  by_cases hq : 0 ≤ q
  · rw [if_pos hq, abs_of_nonneg hq,
      abs_of_nonneg (by exact_mod_cast Int.floor_nonneg.mpr hq)]
    exact ⟨Int.floor_le q, by linarith [Int.lt_floor_add_one q]⟩
  · push_neg at hq
    have hceil : ⌈q⌉ ≤ 0 := Int.ceil_le.mpr (by exact_mod_cast hq.le)
    rw [if_neg (by linarith), abs_of_neg hq,
      abs_of_nonpos (by exact_mod_cast hceil)]
    exact ⟨by linarith [Int.le_ceil q], by linarith [Int.ceil_lt_add_one q]⟩

/-- Witness for C7 at a concrete hourly record and concrete rationals. -/
theorem simplify_hour_truncation_witness :
    (simplify_hour ⟨10, 5, 300.15, 2, 0.6, none⟩).lookup "COLD" = some 27 ∧
    ratTrunc 2.7 = 2 ∧ ratTrunc (-2.7) = -2 := by
  refine ⟨?_, ?_, ?_⟩
  · rw [(simplify_hour_truncation ⟨10, 5, 300.15, 2, 0.6, none⟩).1]
    norm_num [ratTrunc]
  · rw [(simplify_hour_truncation ⟨10, 5, 300.15, 2, 0.6, none⟩).2.2.2.2.1
      2.7 (by norm_num)]
    norm_num
  · rw [(simplify_hour_truncation ⟨10, 5, 300.15, 2, 0.6, none⟩).2.2.2.2.2.1
      (-2.7) (by norm_num)]
    rw [show ((-2.7 : ℚ)) = -(27 / 10) by norm_num, Int.ceil_neg]
    norm_num

/-- Every key of the warnings dict comes from a key of the rule table. -/
theorem warn_keys_subset (d : Dict) (l : List (String × (ℚ → Bool))) :
    ∀ k ∈ (l.filterMap (fun kt =>
        match d.lookup kt.1 with
        | some v => if kt.2 v then some (kt.1, v) else none
        | none => none)).map Prod.fst, k ∈ l.map Prod.fst := by
  intro k hk
  simp only [List.mem_map] at hk ⊢
  obtain ⟨b, hb, rfl⟩ := hk
  simp only [List.mem_filterMap] at hb
  obtain ⟨kt, hkt, hfb⟩ := hb
  refine ⟨kt, hkt, ?_⟩
  split at hfb
  · split at hfb
    · obtain rfl := (Option.some.injEq _ _).mp hfb
      rfl
    · cases hfb
  · cases hfb

/-- Membership of a condition's key in the warnings dict, characterized by
presence in the snapshot plus the predicate, for any rule table without
repeated keys. -/
theorem mem_warn_keys_iff (d : Dict) :
    ∀ (l : List (String × (ℚ → Bool))) (c : String) (tc : ℚ → Bool),
      (c, tc) ∈ l → (l.map Prod.fst).Nodup →
      (c ∈ (l.filterMap (fun kt =>
          match d.lookup kt.1 with
          | some v => if kt.2 v then some (kt.1, v) else none
          | none => none)).map Prod.fst ↔
        ∃ v, d.lookup c = some v ∧ tc v = true) := by
  intro l
  induction l with
  | nil => intro c tc hmem _; exact absurd hmem (List.not_mem_nil _)
  | cons kt l ih =>
      intro c tc hmem hnd
      rw [List.map_cons, List.nodup_cons] at hnd
      obtain ⟨hknot, hndl⟩ := hnd
      rw [List.filterMap_cons]
      rcases List.mem_cons.mp hmem with heq | hmemtail
      · obtain rfl : kt = (c, tc) := heq.symm
        rcases hl : d.lookup c with _ | v
        · simp only [hl]
          constructor
          · intro hc
            exact absurd (warn_keys_subset d l c hc) hknot
          · rintro ⟨v, hv, _⟩
            simp at hv
        · simp only [hl]
          by_cases ht : tc v
          · simp only [if_pos ht, List.map_cons, List.mem_cons]
            refine ⟨fun _ => ⟨v, rfl, ht⟩, fun _ => ?_⟩
            exact Or.inl (by simp)
          · simp only [if_neg ht]
            constructor
            · intro hc
              exact absurd (warn_keys_subset d l c hc) hknot
            · rintro ⟨v', hv', ht'⟩
              obtain rfl : v = v' := by injection hv'
              exact absurd ht' (by simp [ht])
      · have hcl : c ∈ l.map Prod.fst := List.mem_map.mpr ⟨(c, tc), hmemtail, rfl⟩
        have hne : kt.1 ≠ c := fun he => hknot (he ▸ hcl)
        rcases hl : d.lookup kt.1 with _ | v
        · simp only [hl]
          exact ih c tc hmemtail hndl
        · simp only [hl]
          by_cases ht : kt.2 v
          · simp only [if_pos ht, List.map_cons, List.mem_cons]
            constructor
            · rintro (rfl | hc)
              · exact absurd rfl hne
              · exact (ih c tc hmemtail hndl).mp hc
            · intro hr
              exact Or.inr ((ih c tc hmemtail hndl).mpr hr)
          · simp only [if_neg ht]
            exact ih c tc hmemtail hndl

/-- C2: a condition's name appears among the warnings' keys iff the key is
present in the snapshot and its predicate is true on the stored value;
warnings' keys are a subset of values' keys; at the COLD boundary, value 15
yields no COLD warning while value 14 does. -/
theorem status_warnings_iff (d : Dict) (c : String) (tc : ℚ → Bool)
    (hc : (c, tc) ∈ conditions) :
    (c ∈ (Status.mk' d).warnings.map Prod.fst ↔
      ∃ v, d.lookup c = some v ∧ tc v = true) ∧
    (∀ k ∈ (Status.mk' d).warnings.map Prod.fst,
      k ∈ (Status.mk' d).values.map Prod.fst) ∧
    ((Status.mk' [("COLD", 15)]).warnings = []) ∧
    ((Status.mk' [("COLD", 14)]).warnings = [("COLD", 14)]) := by
  refine ⟨?_, ?_, by decide, by decide⟩
  · exact mem_warn_keys_iff d conditions c tc hc (by decide)
  · intro k hk
    simp only [Status.mk', List.mem_map] at hk
    obtain ⟨b, hb, rfl⟩ := hk
    simp only [List.mem_filterMap] at hb
    obtain ⟨kt, hkt, hfb⟩ := hb
    split at hfb
    case h_1 v hl =>
      split at hfb
      · obtain rfl := (Option.some.injEq _ _).mp hfb
        simp only [Status.mk']
        apply List.mem_map.mpr
        refine ⟨(kt.1, v), ?_, rfl⟩
        rw [List.mem_filter]
        refine ⟨lookup_mem hl, ?_⟩
        have hkn : kt.1 ∈ condNames := List.mem_map.mpr ⟨kt, hkt, rfl⟩
        simpa using hkn
      · cases hfb
    case h_2 => cases hfb

/-- Witness for C2 at concrete snapshots. -/
theorem status_warnings_iff_witness :
    ("PROB_RAIN" ∈ (Status.mk' [("PROB_RAIN", (60 : ℚ))]).warnings.map Prod.fst) ∧
    ((Status.mk' [("COLD", 15)]).warnings = []) := by
  constructor
  · exact (status_warnings_iff [("PROB_RAIN", 60)] "PROB_RAIN"
      (fun x => decide (x > 50)) (by simp [conditions])).1.mpr
      ⟨60, rfl, by decide⟩
  · exact (status_warnings_iff [] "PROB_RAIN"
      (fun x => decide (x > 50)) (by simp [conditions])).2.2.1

/-- C8: `get_most_important_warning` returns the first condition name in
rule-table order (PROB_RAIN, COLD, UV, HOT) that is present and triggered,
and the empty string when the warnings dict is empty. -/
theorem most_important_warning_order (d : Dict) :
    ((Status.mk' d).get_most_important_warning =
      (conditions.findSome? (fun kt =>
        match d.lookup kt.1 with
        | some v => if kt.2 v then some kt.1 else none
        | none => none)).getD "") ∧
    ((Status.mk' d).warnings = [] →
      (Status.mk' d).get_most_important_warning = "") := by
  constructor
  · have hgmw : ∀ s : StatusT,
        s.get_most_important_warning = ((s.warnings.head?).map Prod.fst).getD "" := by
      intro s
      cases hw : s.warnings
      · simp [StatusT.get_most_important_warning, hw]
      · simp [StatusT.get_most_important_warning, hw]
    have hfn : (fun kt : String × (ℚ → Bool) =>
        (match d.lookup kt.1 with
         | some v => if kt.2 v then some (kt.1, v) else none
         | none => none).map Prod.fst) =
        (fun kt : String × (ℚ → Bool) =>
        match d.lookup kt.1 with
        | some v => if kt.2 v then some kt.1 else none
        | none => none) := by
      funext kt
      rcases hl : d.lookup kt.1 with _ | v
      · rfl
      · by_cases ht : kt.2 v
        · simp [if_pos ht]
        · simp [if_neg ht]
    have h1 : (Status.mk' d).warnings = conditions.filterMap (fun kt =>
        match d.lookup kt.1 with
        | some v => if kt.2 v then some (kt.1, v) else none
        | none => none) := rfl
    rw [hgmw, h1, head?_filterMap, ← findSome?_map_option, hfn]
  · intro h
    simp [StatusT.get_most_important_warning, h]

/-- Witness for C8 at the empty snapshot. -/
theorem most_important_warning_order_witness :
    (Status.mk' ([] : Dict)).get_most_important_warning = "" :=
  (most_important_warning_order []).2 (by decide)

/-- The lookup of any rule-table key ignores appended WIND and RAINDROPS
entries. -/
theorem lookup_cond_append (d : Dict) (w r : ℚ)
    (kt : String × (ℚ → Bool)) (hkt : kt ∈ conditions) :
    (d ++ [("WIND", w), ("RAINDROPS", r)]).lookup kt.1 = d.lookup kt.1 := by
  apply lookup_append_right_none
  simp only [conditions, List.mem_cons] at hkt
  rcases hkt with rfl | rfl | rfl | rfl | h
  · rfl
  · rfl
  · rfl
  · rfl
  · exact absurd h (List.not_mem_nil _)

/-- C10: the keys of a status's values, bools and warnings are always among
the four condition names (so WIND and RAINDROPS never appear in warnings or
the rendered message), and appending WIND and RAINDROPS entries to the
snapshot leaves the whole status — hence the good/bad decision and the
message — unchanged. -/
theorem status_ignores_wind_raindrops (d : Dict) (w r : ℚ) :
    (∀ k ∈ (Status.mk' d).values.map Prod.fst, k ∈ condNames) ∧
    (∀ k ∈ (Status.mk' d).bools.map Prod.fst, k ∈ condNames) ∧
    (∀ k ∈ (Status.mk' d).warnings.map Prod.fst, k ∈ condNames) ∧
    (Status.mk' (d ++ [("WIND", w), ("RAINDROPS", r)]) = Status.mk' d) ∧
    ("WIND" ∉ (Status.mk' d).warnings.map Prod.fst) ∧
    ("RAINDROPS" ∉ (Status.mk' d).warnings.map Prod.fst) := by
  have hwarn : ∀ k ∈ (Status.mk' d).warnings.map Prod.fst, k ∈ condNames :=
    fun k hk => warn_keys_subset d conditions k hk
  have hbool : ∀ k ∈ (Status.mk' d).bools.map Prod.fst, k ∈ condNames := by
    intro k hk
    simp only [Status.mk', List.mem_map] at hk
    obtain ⟨b, hb, rfl⟩ := hk
    simp only [List.mem_filterMap] at hb
    obtain ⟨kt, hkt, hfb⟩ := hb
    split at hfb
    · obtain rfl := (Option.some.injEq _ _).mp hfb
      exact List.mem_map.mpr ⟨kt, hkt, rfl⟩
    · cases hfb
  refine ⟨?_, hbool, hwarn, ?_, ?_, ?_⟩
  · intro k hk
    simp only [Status.mk', List.mem_map] at hk
    obtain ⟨b, hb, rfl⟩ := hk
    rw [List.mem_filter] at hb
    simpa using hb.2
  · simp only [Status.mk', StatusT.mk.injEq]
    refine ⟨?_, ?_, ?_⟩
    · rw [List.filter_append]
      rw [show List.filter (fun kv => condNames.contains kv.1)
          [("WIND", w), ("RAINDROPS", r)] = [] from rfl]
      rw [List.append_nil]
    · exact List.filterMap_congr (fun kt hkt => by
        rw [lookup_cond_append d w r kt hkt])
    · exact List.filterMap_congr (fun kt hkt => by
        rw [lookup_cond_append d w r kt hkt])
  · intro hmem
    have := hwarn _ hmem
    simp [condNames, conditions] at this
  · intro hmem
    have := hwarn _ hmem
    simp [condNames, conditions] at this

/-- Witness for C10 at a concrete snapshot. -/
theorem status_ignores_wind_raindrops_witness :
    Status.mk' [("COLD", 5), ("WIND", 9), ("RAINDROPS", 1)] =
      Status.mk' [("COLD", 5)] :=
  (status_ignores_wind_raindrops [("COLD", 5)] 9 1).2.2.2.1

theorem intRange_self (a : ℤ) : intRange a a = [a] := by
  rw [intRange]
  norm_num
  rw [show List.range 1 = [0] from rfl]
  simp

theorem intRange_succ_right (a b : ℤ) (h : a ≤ b + 1) :
    intRange a (b + 1) = intRange a b ++ [b + 1] := by
  rw [intRange, intRange]
  have hn : (b + 1 - a + 1).toNat = (b - a + 1).toNat + 1 := by omega
  rw [hn, List.range_succ, List.map_append]
  congr 1
  simp only [List.map_cons, List.map_nil]
  congr 1
  omega

theorem toPairsGo_flatMap (rest : List ℤ) :
    ∀ start prev : ℤ, start ≤ prev →
      ((toPairs.toPairsGo start prev rest).flatMap
          (fun t => intRange t.1 t.2)) =
        intRange start prev ++ rest := by
  induction rest with
  | nil =>
      intro s p _
      simp [toPairs.toPairsGo]
  | cons y ys ih =>
      intro s p hsp
      rw [toPairs.toPairsGo]
      by_cases hy : y = p + 1
      · rw [if_pos hy, ih s y (by omega), hy,
          intRange_succ_right s p (by omega)]
        simp
      · rw [if_neg hy, List.flatMap_cons, ih y y le_rfl, intRange_self]
        rfl

/-- The compression is lossless: expanding every emitted pair back into its
run of consecutive integers recovers the input hour list exactly. -/
theorem toPairs_flatMap (l : List ℤ) :
    (toPairs l).flatMap (fun t => intRange t.1 t.2) = l := by
  cases l with
  | nil => rfl
  | cons x xs =>
      rw [toPairs, toPairsGo_flatMap xs x x le_rfl, intRange_self]
      rfl

theorem toPairsGo_head (rest : List ℤ) :
    ∀ start prev : ℤ, ∃ e tail,
      toPairs.toPairsGo start prev rest = (start, e) :: tail := by
  induction rest with
  | nil => intro s p; exact ⟨p, [], rfl⟩
  | cons y ys ih =>
      intro s p
      rw [toPairs.toPairsGo]
      by_cases hy : y = p + 1
      · rw [if_pos hy]
        exact ih s y
      · rw [if_neg hy]
        exact ⟨p, _, rfl⟩

/-- The emitted pairs are maximal: no pair starts right after the previous
pair's end, so adjacent runs can never be merged. -/
theorem toPairsGo_chain (rest : List ℤ) :
    ∀ start prev : ℤ,
      List.Chain' (fun p q : ℤ × ℤ => q.1 ≠ p.2 + 1)
        (toPairs.toPairsGo start prev rest) := by
  induction rest with
  | nil => intro s p; simp [toPairs.toPairsGo]
  | cons y ys ih =>
      intro s p
      rw [toPairs.toPairsGo]
      by_cases hy : y = p + 1
      · rw [if_pos hy]
        exact ih s y
      · rw [if_neg hy]
        apply List.chain'_cons'.mpr
        refine ⟨?_, ih y y⟩
        intro q hq
        obtain ⟨e, tail, heq⟩ := toPairsGo_head ys y y
        rw [heq] at hq
        obtain rfl : (y, e) = q := by simpa using hq
        exact hy

theorem toPairsGo_le (rest : List ℤ) :
    ∀ start prev : ℤ, start ≤ prev →
      ∀ t ∈ toPairs.toPairsGo start prev rest, t.1 ≤ t.2 := by
  induction rest with
  | nil =>
      intro s p hsp t ht
      obtain rfl : t = (s, p) := by simpa [toPairs.toPairsGo] using ht
      exact hsp
  | cons y ys ih =>
      intro s p hsp t ht
      rw [toPairs.toPairsGo] at ht
      by_cases hy : y = p + 1
      · rw [if_pos hy] at ht
        exact ih s y (by omega) t ht
      · rw [if_neg hy] at ht
        rcases List.mem_cons.mp ht with rfl | ht'
        · exact hsp
        · exact ih y y le_rfl t ht'

/-- Every emitted pair is a well-formed range: its start is at most its
end. -/
theorem toPairs_le (l : List ℤ) : ∀ t ∈ toPairs l, t.1 ≤ t.2 := by
  cases l with
  | nil => intro t ht; exact absurd ht (List.not_mem_nil _)
  | cons x xs =>
      rw [toPairs]
      exact toPairsGo_le xs x x le_rfl

/-- C4: the compression depends only on the true-flagged hours; it is
lossless (each `start-end` pair expands back to its run of consecutive
integers, recovering the true-hours exactly), pairs are maximal and
well-formed; the claim's concrete examples render as stated; and a
condition with no triggered hour contributes no report line. -/
theorem range_compression (arr : List (ℤ × Bool)) :
    (condition_pairs_to_string arr =
      condition_pairs_to_string (arr.filter (fun p => p.2))) ∧
    ((toPairs ((arr.filter (fun p => p.2 == true)).map Prod.fst)).flatMap
        (fun t => intRange t.1 t.2) =
      (arr.filter (fun p => p.2 == true)).map Prod.fst) ∧
    (List.Chain' (fun p q : ℤ × ℤ => q.1 ≠ p.2 + 1)
      (toPairs ((arr.filter (fun p => p.2 == true)).map Prod.fst))) ∧
    (∀ t ∈ toPairs ((arr.filter (fun p => p.2 == true)).map Prod.fst),
      t.1 ≤ t.2) ∧
    (condition_pairs_to_string
        [(7, true), (8, true), (9, true), (13, true), (15, true), (16, true)] =
      "7-9, 13, 15-16") ∧
    (condition_pairs_to_string [(5, true)] = "5") ∧
    (condition_pairs_to_string [] = "") ∧
    (∀ (cname : String) (hours : List (ℤ × StatusT)),
      (∀ p ∈ hours, (p.2.bools.lookup cname).getD false = false) →
      reportLine cname hours = none) := by
  have hfilter : arr.filter (fun p => p.2 == true) =
      (arr.filter (fun p => p.2)).filter (fun p => p.2 == true) := by
    induction arr with
    | nil => rfl
    | cons a l ihl =>
        cases h : a.2 <;> simp [List.filter_cons, h, ihl]
  refine ⟨?_, toPairs_flatMap _, ?_, toPairs_le _, by decide, by decide, rfl, ?_⟩
  · simp only [condition_pairs_to_string]
    rw [← hfilter]
  · cases hl : (arr.filter (fun p => p.2 == true)).map Prod.fst with
    | nil => simp [toPairs]
    | cons x xs => rw [toPairs]; exact toPairsGo_chain xs x x
  · intro cname hours hnone
    rw [reportLine]
    have hany : (hours.map
        (fun p => (p.1, (p.2.bools.lookup cname).getD false))).any
          (fun p => p.2) = false := by
      rw [List.any_eq_false]
      rintro ⟨hh, b⟩ hmem
      rw [List.mem_map] at hmem
      obtain ⟨p, hp, heq⟩ := hmem
      cases heq
      simp [hnone p hp]
    simp [hany]

/-- Witness for C4: a condition with no triggered hour yields no line. -/
theorem range_compression_witness :
    reportLine "COLD" ([] : List (ℤ × StatusT)) = none :=
  (range_compression []).2.2.2.2.2.2.2 "COLD" [] (by simp)

/-- C5: on a successful cycle, the regular path sends nothing when the
next-hour status is good and exactly one notification when it is not,
while the report path always sends the report result when triggered,
regardless of the report's goodness. -/
theorem notification_policy (rep reg : Bool) (rRes nRes : WeatherResult) :
    (reg = true → nRes.is_good = true →
      cycleNotifications rep reg rRes nRes = if rep then [rRes] else []) ∧
    (reg = true → nRes.is_good = false →
      cycleNotifications rep reg rRes nRes =
        (if rep then [rRes] else []) ++ [nRes]) ∧
    (rep = true → rRes ∈ cycleNotifications rep reg rRes nRes) := by
  refine ⟨?_, ?_, ?_⟩
  · rintro rfl hg
    rw [cycleNotifications, hg]
    simp
  · rintro rfl hg
    rw [cycleNotifications, hg]
    simp
  · rintro rfl
    rw [cycleNotifications]
    simp

/-- Witness for C5 at concrete evaluation results. -/
theorem notification_policy_witness :
    cycleNotifications false true (check_report 0 24 []) (check_next_hour [])
        = [] ∧
    check_report 0 24 [] ∈
      cycleNotifications true false (check_report 0 24 [])
        (check_next_hour []) := by
  constructor
  · exact (notification_policy false true (check_report 0 24 [])
      (check_next_hour [])).1 rfl (by decide)
  · exact (notification_policy true false (check_report 0 24 [])
      (check_next_hour [])).2.2 rfl

/-- C9: if no condition triggers on any retained hour of the report window,
the report result is good, has an empty warning and carries exactly the
fixed celebratory message; if some condition triggers on a retained hour,
the report is not good. -/
theorem report_good_case (nowHour lastHour : ℤ) (hs : List RawHour) :
    ((∀ p ∈ retainedHours nowHour lastHour hs, ∀ c ∈ condNames,
        ¬((p.2.bools.lookup c).getD false = true)) →
      check_report nowHour lastHour hs = ⟨true, "", "Good weather! 🤗"⟩) ∧
    ((∃ p ∈ retainedHours nowHour lastHour hs, ∃ c ∈ condNames,
        (p.2.bools.lookup c).getD false = true) →
      (check_report nowHour lastHour hs).is_good = false) := by
  constructor
  · intro hq
    have hlines : reportLines (retainedHours nowHour lastHour hs) = [] := by
      rw [reportLines, List.filterMap_eq_nil_iff]
      intro kt hkt
      rw [reportLine]
      have hany : ((retainedHours nowHour lastHour hs).map
          (fun p => (p.1, (p.2.bools.lookup kt.1).getD false))).any
            (fun p => p.2) = false := by
        rw [List.any_eq_false]
        rintro ⟨hh, b⟩ hmem
        rw [List.mem_map] at hmem
        obtain ⟨p, hp, heq⟩ := hmem
        cases heq
        simpa using hq p hp kt.1 (List.mem_map.mpr ⟨kt, hkt, rfl⟩)
      simp [hany]
    simp only [check_report, hlines]
    rfl
  · rintro ⟨p, hp, c, hc, htrig⟩
    obtain ⟨kt, hkt, rfl⟩ := List.mem_map.mp hc
    have hline : ∃ s, reportLine kt.1 (retainedHours nowHour lastHour hs)
        = some s := by
      rw [reportLine]
      have hany : ((retainedHours nowHour lastHour hs).map
          (fun q => (q.1, (q.2.bools.lookup kt.1).getD false))).any
            (fun q => q.2) = true := by
        rw [List.any_eq_true]
        exact ⟨(p.1, (p.2.bools.lookup kt.1).getD false),
          List.mem_map.mpr ⟨p, hp, rfl⟩, htrig⟩
      simp [hany]
    obtain ⟨s, hsome⟩ := hline
    have hne : reportLines (retainedHours nowHour lastHour hs) ≠ [] := by
      intro hnil
      rw [reportLines, List.filterMap_eq_nil_iff] at hnil
      rw [hnil kt hkt] at hsome
      cases hsome
    cases hrL : reportLines (retainedHours nowHour lastHour hs) with
    | nil => exact absurd hrL hne
    | cons a l => simp [check_report, hrL]

/-- Witness for C9: empty window is good with the fixed message; a single
retained hour with a high UV index makes the report not good. -/
theorem report_good_case_witness :
    check_report 0 24 [] = ⟨true, "", "Good weather! 🤗"⟩ ∧
    (check_report 0 24 [⟨10, 5, 300, 0, 0, none⟩]).is_good = false := by
  constructor
  · exact (report_good_case 0 24 []).1 (by simp [retainedHours])
  · refine (report_good_case 0 24 [⟨10, 5, 300, 0, 0, none⟩]).2
      ⟨(10, Status.mk' (simplify_hour ⟨10, 5, 300, 0, 0, none⟩)),
        ?_, "UV", by decide, ?_⟩
    · exact List.mem_singleton.mpr rfl
    · have hb : (Status.mk' (simplify_hour ⟨10, 5, 300, 0, 0, none⟩)).bools.lookup
          "UV" = some (decide ((5 : ℚ) > 2)) := rfl
      rw [hb]
      decide

end Weather
